import Mathlib

/-!
A verification development for the FlowForge CI/CD control plane.

Each Go function relevant to the checked properties is shallow-embedded as an
executable Lean definition that follows the source line by line: Go maps become
association lists (or `String → Option String` for environment maps), database
records become structures, the pipeline engine's concurrent behaviour becomes a
step function over an explicit engine state driven by a trace of events, and
library calls (cron parsing, RSA generation, base64) become explicit parameters
or abstract payload constructors.  Theorems about these definitions settle the
specification's claims.
-/

namespace FlowForge

/-! ## Association-list helpers (Go `map` operations) -/

/-- First-match lookup in an association list (a Go map read). -/
def alookup {κ α : Type} [DecidableEq κ] : List (κ × α) → κ → Option α
  | [], _ => none
  | (k, v) :: rest, k' => if k' = k then some v else alookup rest k'

/-- Update every binding of key `k` in place (used when `k` is known present). -/
def aupd {κ α : Type} [DecidableEq κ] : List (κ × α) → κ → (α → α) → List (κ × α)
  | [], _, _ => []
  | (k', v) :: rest, k, f =>
    if k' = k then (k', f v) :: aupd rest k f else (k', v) :: aupd rest k f

/-- Go map assignment `m[k] = v`: replace the binding if present, else append. -/
def aset {κ α : Type} [DecidableEq κ] (l : List (κ × α)) (k : κ) (v : α) :
    List (κ × α) :=
  if (alookup l k).isSome then aupd l k (fun _ => v) else l ++ [(k, v)]

/-- Go map deletion `delete(m, k)`. -/
def adel {κ α : Type} [DecidableEq κ] : List (κ × α) → κ → List (κ × α)
  | [], _ => []
  | (k', v) :: rest, k =>
    if k' = k then adel rest k else (k', v) :: adel rest k

/-! ## Persistence gateway (`pkg/database/database.go`) -/

namespace Database

/-- The offset and limit a GORM scope applies to a query. -/
structure PageQuery where
  dbOffset : Int
  dbLimit : Int
deriving DecidableEq, Repr

/-- `Paginate(page, pageSize)` from `pkg/database/database.go`: normalizes
`page` and `pageSize` exactly as the Go code does and returns the offset and
limit handed to `db.Offset(...).Limit(...)`. -/
def Paginate (page pageSize : Int) : PageQuery :=
  let page1 := if page ≤ 0 then 1 else page
  let size1 := if pageSize ≤ 0 then 10 else pageSize
  let size2 := if size1 > 100 then 100 else size1
  ⟨(page1 - 1) * size2, size2⟩

end Database

/-! ## Script executor (`pkg/scripts/scripts.go`) -/

namespace Scripts

/-- Result of `Execute` (the wall-clock `Duration` field is not modelled). -/
structure ExecuteResult where
  exitCode : Int
  output : String
  error : String
deriving DecidableEq, Repr

/-- Outcome of `cmd.Wait()` inside `Execute`. -/
inductive WaitOutcome
  | normal
  | exited (code : Int)
  | waitFailure (msg : String)
deriving DecidableEq, Repr

/-- The stdout-reader goroutine of `Execute`: for each complete line, append
`line + "\n"` to `outputBuilder` and deliver the line verbatim to the
`LogCallback`.  Returns the builder contents and the callback deliveries. -/
def readStdoutLoop (lines : List String) : String × List String :=
  lines.foldl (fun acc line => (acc.1 ++ line ++ "\n", acc.2 ++ [line])) ("", [])

/-- The stderr-reader goroutine of `Execute`: the builder receives the bare
line plus newline, while the callback receives `"ERROR: " + line`. -/
def readStderrLoop (lines : List String) : String × List String :=
  lines.foldl
    (fun acc line => (acc.1 ++ line ++ "\n", acc.2 ++ ["ERROR: " ++ line])) ("", [])

/-- `Execute` after the child process has started, given the complete lines
each stream produced and the `cmd.Wait()` outcome.  Returns the result
together with the per-stream callback deliveries (intra-stream order is
strict; inter-stream interleaving is not modelled).  A `Wait` error that is
not an `exec.ExitError` is an invocation error. -/
def ExecuteCapture (stdoutLines stderrLines : List String) (w : WaitOutcome) :
    Except String (ExecuteResult × List String × List String) :=
  let so := readStdoutLoop stdoutLines
  let se := readStderrLoop stderrLines
  match w with
  | .waitFailure msg => .error ("命令执行失败: " ++ msg)
  | .normal => .ok (⟨0, so.1, se.1⟩, so.2, se.2)
  | .exited code => .ok (⟨code, so.1, se.1⟩, so.2, se.2)

end Scripts

/-! ## SSH remoting (`pkg/ssh`, `GenerateKeyPair`) -/

namespace Ssh

inductive PEMCipher
  | aes256
deriving DecidableEq, Repr

/-- Payload of a PEM block: either the plain DER bytes or the bytes encrypted
under a passphrase with a cipher (the effect of `x509.EncryptPEMBlock`).
DER byte strings are abstracted as `Nat` codes. -/
inductive PEMPayload
  | plain (der : Nat)
  | encrypted (der : Nat) (passphrase : String) (cipher : PEMCipher)
deriving DecidableEq, Repr

structure PEMBlock where
  blockType : String
  payload : PEMPayload
deriving DecidableEq, Repr

structure RSAPrivateKey where
  material : Nat
deriving DecidableEq, Repr

structure RSAPublicKey where
  material : Nat
deriving DecidableEq, Repr

/-- The `&privateKey.PublicKey` of an RSA private key. -/
def RSAPrivateKey.publicKey (k : RSAPrivateKey) : RSAPublicKey := ⟨k.material⟩

/-- `x509.MarshalPKCS1PrivateKey`, abstract on the key material. -/
def marshalPKCS1PrivateKey (k : RSAPrivateKey) : Nat := k.material

/-- `x509.EncryptPEMBlock(rand, type, bytes, passphrase, cipher)`. -/
def encryptPEMBlock (blockType : String) (der : Nat) (passphrase : String)
    (cipher : PEMCipher) : PEMBlock :=
  ⟨blockType, .encrypted der passphrase cipher⟩

/-- `ssh.MarshalAuthorizedKey`: the one-line authorized-keys representation,
with `base64` standing for the library's base64 encoder. -/
def marshalAuthorizedKey (base64 : Nat → String) (pk : RSAPublicKey) : String :=
  "ssh-rsa " ++ base64 pk.material ++ "\n"

/-- `GenerateKeyPair(bits, passphrase)`: `key` is the RSA material that
`rsa.GenerateKey(rand.Reader, bits)` drew for the requested bit size.  An
empty passphrase yields a plain `RSA PRIVATE KEY` PEM block; a non-empty one
yields the block encrypted with `x509.PEMCipherAES256`.  The second component
is the public half in authorized-keys form. -/
def GenerateKeyPair (base64 : Nat → String) (bits : Nat) (key : RSAPrivateKey)
    (passphrase : String) : PEMBlock × String :=
  let _ := bits
  let privBlock :=
    if passphrase = "" then
      PEMBlock.mk "RSA PRIVATE KEY" (.plain (marshalPKCS1PrivateKey key))
    else
      encryptPEMBlock "RSA PRIVATE KEY" (marshalPKCS1PrivateKey key) passphrase
        .aes256
  (privBlock, marshalAuthorizedKey base64 key.publicKey)

/-- Whether a PEM block is encrypted, and under which cipher. -/
def PEMBlock.cipherOf : PEMBlock → Option PEMCipher
  | ⟨_, .plain _⟩ => none
  | ⟨_, .encrypted _ _ c⟩ => some c

end Ssh

/-! ## Scheduler (`pkg/scheduler/scheduler.go`) -/

namespace Scheduler

structure CronEntry where
  entryId : Nat
  spec : String
  fnId : Nat
deriving DecidableEq, Repr

/-- The robfig/cron registry: the entry list plus the next fresh `EntryID`. -/
structure Cron where
  entries : List CronEntry
  nextId : Nat
deriving DecidableEq, Repr

/-- `cron.Remove(entryID)`. -/
def Cron.removeEntry (c : Cron) (eid : Nat) : Cron :=
  { c with entries := c.entries.filter (fun e => e.entryId != eid) }

/-- `cron.AddFunc(spec, cmd)`: `valid` stands for the library's 6-field
(seconds-precision) cron parser; on success the function is registered under
a fresh entry id, which is returned. -/
def Cron.addFunc (valid : String → Bool) (c : Cron) (spec : String)
    (fnId : Nat) : Option (Cron × Nat) :=
  if valid spec then
    some ({ entries := c.entries ++ [⟨c.nextId, spec, fnId⟩],
            nextId := c.nextId + 1 }, c.nextId)
  else none

/-- Observable scheduler state: the embedded cron, the `running` flag and the
`jobs` map from job id to cron `EntryID` (callback closures are identified by
`fnId` numbers). -/
structure SchedState where
  cron : Cron
  running : Bool
  jobs : List (String × Nat)
deriving DecidableEq, Repr

/-- `Scheduler.Start`: error when already running, otherwise flip the flag. -/
def Start (s : SchedState) : SchedState × Option String :=
  if s.running then (s, some "scheduler is already running")
  else ({ s with running := true }, none)

/-- `Scheduler.Stop`: error when not running, otherwise flip the flag (the
context cancellation and `cron.Stop()` affect no modelled state). -/
def Stop (s : SchedState) : SchedState × Option String :=
  if s.running then ({ s with running := false }, none)
  else (s, some "scheduler is not running")

/-- `AddJob(jobID, spec, cmd)`: an existing entry under the id is removed,
then the new function is registered; on a parse error the removal has already
happened and the stale `jobs` binding is left in place, exactly as in the
source.  The whole body holds `s.mu`, so with respect to the registry the
replacement is a single atomic operation, which this sequential function is. -/
def AddJob (valid : String → Bool) (s : SchedState) (jobId spec : String)
    (fnId : Nat) : SchedState × Bool :=
  let cron1 :=
    match alookup s.jobs jobId with
    | some eid => s.cron.removeEntry eid
    | none => s.cron
  match cron1.addFunc valid spec fnId with
  | none => ({ s with cron := cron1 }, false)
  | some (cron2, eid) =>
    ({ s with cron := cron2, jobs := aset s.jobs jobId eid }, true)

/-- Registry well-formedness: every entry id was allocated below `nextId`. -/
def Cron.WF (c : Cron) : Bool :=
  c.entries.all (fun e => e.entryId < c.nextId)

end Scheduler

/-! ## Pipeline engine (`pkg/pipeline/engine.go`) -/

namespace Pipeline

inductive RunStatus
  | pending
  | running
  | success
  | failed
  | cancelled
deriving DecidableEq, Repr

def RunStatus.isTerminal : RunStatus → Bool
  | .success => true
  | .failed => true
  | .cancelled => true
  | _ => false

/-- A Go `interface{}` value inside a step's `config.env` map: the engine
keeps string values and ignores everything else. -/
inductive GoVal
  | str (s : String)
  | nonString
deriving DecidableEq, Repr

/-- The fields of a step's `config` map that the engine reads (each `none`
when the key is absent or of the wrong dynamic type). -/
structure StepConfig where
  script : Option String
  buildType : Option String
  env : Option (List (String × GoVal))
deriving DecidableEq, Repr

structure PipelineStep where
  name : String
  stepType : String
  config : StepConfig
deriving DecidableEq, Repr

structure PipelineStage where
  name : String
  steps : List PipelineStep
deriving DecidableEq, Repr

structure PipelineConfig where
  stages : List PipelineStage
deriving DecidableEq, Repr

/-- A pipeline's stored `Config` string, by the outcome `json.Unmarshal` has
on it: either unparseable or a well-formed spec document. -/
inductive SpecDoc
  | malformed (raw : String)
  | wellFormed (cfg : PipelineConfig)
deriving DecidableEq, Repr

/-- `json.Unmarshal([]byte(pipeline.Config), &config)`. -/
def parseConfig : SpecDoc → Option PipelineConfig
  | .malformed _ => none
  | .wellFormed cfg => some cfg

structure PipelineRec where
  name : String
  projectId : Nat
  config : SpecDoc
deriving DecidableEq, Repr

/-- Environment maps (`map[string]string`). -/
def StrMap := String → Option String

def StrMap.empty : StrMap := fun _ => none

/-- Go map assignment `env[k] = v`. -/
def StrMap.set (m : StrMap) (k v : String) : StrMap :=
  fun k' => if k' = k then some v else m k'

/-- The well-known environment literal built at the top of `executeScript`. -/
def wellKnownEnv (projectName : String) (projectId pipelineId runId : Nat) :
    StrMap :=
  ((((StrMap.empty.set "PROJECT_NAME" projectName).set
      "PROJECT_ID" (toString projectId)).set
      "PIPELINE_ID" (toString pipelineId)).set
      "PIPELINE_RUN_ID" (toString runId)).set
      "BUILD_VERSION" ("v" ++ toString runId)

/-- The custom-env loop of `executeScript`: each string-valued entry of
`config.env` is assigned into the map built from the well-knowns. -/
def mergeUserEnv (base : StrMap) : List (String × GoVal) → StrMap
  | [] => base
  | (k, .str v) :: rest => mergeUserEnv (base.set k v) rest
  | (_, .nonString) :: rest => mergeUserEnv base rest

/-- The merged environment `executeScript` hands to `scriptManager.Execute`. -/
def executeScriptEnv (projectName : String) (projectId pipelineId runId : Nat)
    (cfg : StepConfig) : StrMap :=
  let env := wellKnownEnv projectName projectId pipelineId runId
  match cfg.env with
  | some entries => mergeUserEnv env entries
  | none => env

/-- The last string value the `config.env` entries bind to key `k` (a Go map
holds each key at most once, so this is simply that key's value). -/
def lastStr : List (String × GoVal) → String → Option String
  | [], _ => none
  | (k', .str v) :: rest, k =>
    match lastStr rest k with
    | some w => some w
    | none => if k' = k then some v else none
  | (_, .nonString) :: rest, k => lastStr rest k

/-- A persisted `PipelineRun` row (fields the claims are about). -/
structure RunRec where
  pipelineId : Nat
  status : RunStatus
  logs : String
deriving DecidableEq, Repr

/-- The observable state of a `JobContext`: its buffered log channel
(capacity 100). -/
structure JobCtx where
  logChan : List String
deriving DecidableEq, Repr

/-- The engine's shared state: the persisted pipelines and runs (the
database) plus the live registry `runningJobs`. -/
structure EngineState where
  pipelines : List (Nat × PipelineRec)
  runs : List (Nat × RunRec)
  live : List (Nat × JobCtx)
deriving DecidableEq, Repr

/-- `RunPipeline`: load the pipeline, create the run record already in status
`running`, insert it into the live registry and spawn `executePipeline`.  The
spec document is not examined here.  `rid` models the fresh primary key
`DB.Create` assigns; a non-fresh id is rejected to model autoincrement. -/
def RunPipeline (st : EngineState) (pid rid : Nat) : EngineState × Bool :=
  match alookup st.pipelines pid with
  | none => (st, false)
  | some _ =>
    if (alookup st.runs rid).isSome then (st, false)
    else
      ({ st with runs := st.runs ++ [(rid, ⟨pid, .running, ""⟩)],
                 live := st.live ++ [(rid, ⟨[]⟩)] }, true)

/-- `finishPipelineRun`: an unconditional `Updates` writing status and the
final log message — the current persisted status is never consulted. -/
def finishPipelineRun (st : EngineState) (rid : Nat) (status : RunStatus)
    (msg : String) : EngineState :=
  { st with
      runs := aupd st.runs rid (fun r => { r with status := status, logs := msg }) }

/-- The end of `executePipeline`: the single `finishPipelineRun` write plus
the deferred removal from `runningJobs` (and channel close). -/
def goroutineFinish (st : EngineState) (rid : Nat) (status : RunStatus)
    (msg : String) : EngineState :=
  let st1 := finishPipelineRun st rid status msg
  { st1 with live := adel st1.live rid }

/-- `CancelPipelineRun`: when the run is live, cancel its context and write
`cancelled` unconditionally — without removing the registry entry (the
goroutine's deferred cleanup does that later). -/
def CancelPipelineRun (st : EngineState) (rid : Nat) : EngineState × Bool :=
  match alookup st.live rid with
  | none => (st, false)
  | some _ =>
    ({ st with
        runs := aupd st.runs rid
          (fun r => { r with status := .cancelled, logs := "流水线运行已被取消" }) },
      true)

/-- `logMessage`: a non-blocking send on the capacity-100 channel; the line
is dropped when the channel is full. -/
def logMessage (st : EngineState) (rid : Nat) (line : String) : EngineState :=
  match alookup st.live rid with
  | none => st
  | some ctx =>
    if ctx.logChan.length < 100 then
      { st with live := aupd st.live rid (fun c => ⟨c.logChan ++ [line]⟩) }
    else st

/-- `GetJobLogs`: a live run's channel is drained (the returned lines leave
the channel); a dead run falls back to the persisted log blob, or an error
when the run does not exist at all. -/
def GetJobLogs (st : EngineState) (rid : Nat) :
    Except String (List String) × EngineState :=
  match alookup st.live rid with
  | none =>
    match alookup st.runs rid with
    | none => (.error "流水线运行不存在", st)
    | some r => (.ok [r.logs], st)
  | some ctx =>
    (.ok ctx.logChan, { st with live := aupd st.live rid (fun _ => ⟨[]⟩) })

/-- Per-step verdict of `executeStep`, with the external world (script exit
codes, git transport, the filesystem probes of `executeBuild`) abstracted by
`oracle`; an unknown step type fails deterministically, and a `script` step
without a string `config.script` fails before the executor is invoked. -/
def stepVerdict (oracle : PipelineStep → Bool) (s : PipelineStep) : Bool :=
  match s.stepType with
  | "git_clone" => oracle s
  | "script" => s.config.script.isSome && oracle s
  | "build" => oracle s
  | "deploy" => oracle s
  | _ => false

/-- The terminal status `executePipeline` hands to `finishPipelineRun`:
`failed` when the stored config does not parse, otherwise `success` iff every
step of every stage succeeds in order. -/
def executePipelineStatus (oracle : PipelineStep → Bool) (doc : SpecDoc) :
    RunStatus :=
  match parseConfig doc with
  | none => .failed
  | some cfg =>
    if cfg.stages.all (fun stg => stg.steps.all (stepVerdict oracle)) then
      .success
    else .failed

/-- Events that interleave on the shared engine state.  `finish` carries the
status `executePipeline` computed — the goroutine only ever hands `success`
or `failed` to `finishPipelineRun`, so other statuses are rejected. -/
inductive Event
  | runReq (pid rid : Nat)
  | finish (rid : Nat) (status : RunStatus) (msg : String)
  | cancelReq (rid : Nat)
  | publish (rid : Nat) (line : String)
  | getLogs (rid : Nat)
deriving DecidableEq, Repr

/-- One interleaved engine step. -/
def EngineState.stepEv (st : EngineState) : Event → EngineState
  | .runReq pid rid => (RunPipeline st pid rid).1
  | .finish rid status msg =>
    if (alookup st.live rid).isSome
        && (status == .success || status == .failed) then
      goroutineFinish st rid status msg
    else st
  | .cancelReq rid => (CancelPipelineRun st rid).1
  | .publish rid line => logMessage st rid line
  | .getLogs rid => (GetJobLogs st rid).2

/-- Run a trace of events. -/
def EngineState.runTrace (st : EngineState) (evs : List Event) : EngineState :=
  evs.foldl EngineState.stepEv st

/-- The persisted status of a run. -/
def runStatusOf (st : EngineState) (rid : Nat) : Option RunStatus :=
  (alookup st.runs rid).map RunRec.status

/-- How many persisted runs are currently in status `running`. -/
def runningCount (st : EngineState) : Nat :=
  (st.runs.filter (fun p => p.2.status == .running)).length

/-- A well-formed one-stage demo pipeline. -/
def demoPipeline : PipelineRec :=
  ⟨"demo", 1, .wellFormed ⟨[⟨"build", [⟨"run tests", "script",
    ⟨some "echo hello", none, none⟩⟩]⟩]⟩⟩

/-- A pipeline whose stored spec is not valid JSON. -/
def brokenPipeline : PipelineRec := ⟨"broken", 1, .malformed "not valid json"⟩

/-- Initial engine state for the concrete scenarios: two stored pipelines,
no runs, nothing live. -/
def engine0 : EngineState := ⟨[(1, demoPipeline), (2, brokenPipeline)], [], []⟩

/-- `n` back-to-back `RunPipeline` requests against pipeline 1, with the
fresh run ids `1..n`. -/
def runBurst (n : Nat) : List Event :=
  (List.range n).map (fun i => .runReq 1 (i + 1))

/-- The state used by the concrete `GetJobLogs` scenario: run 7 is live with
two buffered lines. -/
def liveLogState : EngineState := ⟨[], [], [(7, ⟨["a", "b"]⟩)]⟩

end Pipeline

/-! ## Association-list lemmas -/

theorem alookup_append {κ α : Type} [DecidableEq κ] (l₁ l₂ : List (κ × α)) (k : κ) :
    alookup (l₁ ++ l₂) k =
      match alookup l₁ k with
      | some v => some v
      | none => alookup l₂ k := by
  induction l₁ with
  | nil => simp [alookup]
  | cons p rest ih =>
    cases p with
    | mk k' v =>
      by_cases h : k = k' <;> simp [alookup, h, ih]

theorem alookup_aupd_self {κ α : Type} [DecidableEq κ] (l : List (κ × α)) (k : κ)
    (f : α → α) : alookup (aupd l k f) k = (alookup l k).map f := by
  induction l with
  | nil => simp [alookup, aupd]
  | cons p rest ih =>
    cases p with
    | mk k' v =>
      by_cases h : k' = k
      · subst h; simp [alookup, aupd]
      · have h' : ¬ k = k' := fun hc => h hc.symm
        simp [alookup, aupd, h, h', ih]

theorem alookup_aupd_ne {κ α : Type} [DecidableEq κ] (l : List (κ × α)) (k k' : κ)
    (f : α → α) (h : k' ≠ k) : alookup (aupd l k f) k' = alookup l k' := by
  induction l with
  | nil => simp [alookup, aupd]
  | cons p rest ih =>
    cases p with
    | mk k₀ v =>
      by_cases h0 : k₀ = k
      · subst h0
        simp [alookup, aupd, h, ih]
      · by_cases h1 : k' = k₀ <;> simp [alookup, aupd, h0, h1, ih]

theorem alookup_adel_ne {κ α : Type} [DecidableEq κ] (l : List (κ × α)) (k k' : κ)
    (h : k' ≠ k) : alookup (adel l k) k' = alookup l k' := by
  induction l with
  | nil => simp [alookup, adel]
  | cons p rest ih =>
    cases p with
    | mk k₀ v =>
      by_cases h0 : k₀ = k
      · subst h0
        simp [alookup, adel, h, ih]
      · by_cases h1 : k' = k₀ <;> simp [alookup, adel, h0, h1, ih]

theorem alookup_adel_self {κ α : Type} [DecidableEq κ] (l : List (κ × α)) (k : κ) :
    alookup (adel l k) k = none := by
  induction l with
  | nil => simp [alookup, adel]
  | cons p rest ih =>
    cases p with
    | mk k₀ v =>
      by_cases h0 : k₀ = k
      · subst h0; simp [alookup, adel, ih]
      · have h1 : ¬ k = k₀ := fun hc => h0 hc.symm
        simp [alookup, adel, h0, h1, ih]

theorem alookup_aset_self {κ α : Type} [DecidableEq κ] (l : List (κ × α)) (k : κ)
    (v : α) : alookup (aset l k v) k = some v := by
  unfold aset
  by_cases h : (alookup l k).isSome
  · simp only [h, if_true]
    rw [alookup_aupd_self]
    cases hl : alookup l k with
    | some w => simp
    | none => rw [hl] at h; simp at h
  · rw [if_neg h, alookup_append]
    cases hl : alookup l k with
    | some v' => rw [hl] at h; simp at h
    | none => simp [alookup]

theorem alookup_snoc_isSome {κ α : Type} [DecidableEq κ] (l : List (κ × α))
    (k : κ) (v : α) : (alookup (l ++ [(k, v)]) k).isSome = true := by
  rw [alookup_append]
  cases hl : alookup l k with
  | some w => simp
  | none => simp [alookup]

theorem alookup_snoc_fresh {κ α : Type} [DecidableEq κ] (l : List (κ × α))
    (k : κ) (v : α) (h : alookup l k = none) :
    alookup (l ++ [(k, v)]) k = some v := by
  rw [alookup_append, h]
  simp [alookup]

/-! ## Persistence gateway: the pagination claims (C7) -/

namespace Database

/-- C7 counterexample: the claim says any `pageSize` below the interval
`[1, 100]` is clamped to the lower bound 1, but `Paginate` replaces a
non-positive `pageSize` with the default 10. -/
theorem paginate_small_pageSize_not_one :
    (Paginate 1 0).dbLimit = 10 ∧ (Paginate 1 0).dbLimit ≠ 1 := by decide

/-- C7 amended: the effective page size always lies in `[1, 100]`; a
`pageSize` above the interval is clamped to 100, a non-positive `pageSize`
becomes the default 10 (not 1), values already in `[1, 100]` pass through,
and the offset is computed from the clamped page and the effective size. -/
theorem paginate_clamps :
    ∀ page pageSize : Int,
      1 ≤ (Paginate page pageSize).dbLimit ∧
      (Paginate page pageSize).dbLimit ≤ 100 ∧
      (pageSize ≤ 0 → (Paginate page pageSize).dbLimit = 10) ∧
      (100 < pageSize → (Paginate page pageSize).dbLimit = 100) ∧
      (1 ≤ pageSize → pageSize ≤ 100 →
        (Paginate page pageSize).dbLimit = pageSize) ∧
      (Paginate page pageSize).dbOffset =
        ((if page ≤ 0 then 1 else page) - 1) * (Paginate page pageSize).dbLimit := by
  intro page pageSize
  unfold Paginate
  dsimp only
  split_ifs <;>
    exact ⟨by omega, by omega, by omega, by omega, by omega, by ring⟩

/-- Witness for `paginate_clamps` at `page = 2`, `pageSize = 150`. -/
theorem paginate_clamps_witness : (Paginate 2 150).dbLimit = 100 :=
  (paginate_clamps 2 150).2.2.2.1 (by decide)

end Database

/-! ## Script executor: the stream-capture claim (C8) -/

namespace Scripts

/-- The shape C8 ascribes to the accumulated blobs: each unprefixed line
followed by a newline. -/
def blobOf : List String → String
  | [] => ""
  | l :: rest => l ++ "\n" ++ blobOf rest

theorem readStdoutLoop_general (lines : List String) (s : String)
    (cbs : List String) :
    lines.foldl (fun acc line => (acc.1 ++ line ++ "\n", acc.2 ++ [line]))
        (s, cbs) =
      (s ++ blobOf lines, cbs ++ lines) := by
  induction lines generalizing s cbs with
  | nil => simp [blobOf]
  | cons l rest ih =>
    simp only [List.foldl_cons, ih, blobOf]
    rw [Prod.mk.injEq]
    constructor
    · simp [String.append_assoc]
    · simp

theorem readStderrLoop_general (lines : List String) (s : String)
    (cbs : List String) :
    lines.foldl
        (fun acc line => (acc.1 ++ line ++ "\n", acc.2 ++ ["ERROR: " ++ line]))
        (s, cbs) =
      (s ++ blobOf lines, cbs ++ lines.map (fun l => "ERROR: " ++ l)) := by
  induction lines generalizing s cbs with
  | nil => simp [blobOf]
  | cons l rest ih =>
    simp only [List.foldl_cons, ih, blobOf, List.map_cons]
    rw [Prod.mk.injEq]
    constructor
    · simp [String.append_assoc]
    · simp

/-- C8: during `Execute` every complete stderr line reaches the callback with
the literal `"ERROR: "` in front, every stdout line reaches it verbatim, and
the accumulated `Output` and `Error` blobs hold the unprefixed lines each
followed by a newline — both when the child exits normally and when it exits
with a code. -/
theorem execute_stream_capture :
    ∀ (outLines errLines : List String) (code : Int),
      ExecuteCapture outLines errLines (.exited code) =
        .ok (⟨code, blobOf outLines, blobOf errLines⟩,
          outLines, errLines.map (fun l => "ERROR: " ++ l)) ∧
      ExecuteCapture outLines errLines .normal =
        .ok (⟨0, blobOf outLines, blobOf errLines⟩,
          outLines, errLines.map (fun l => "ERROR: " ++ l)) := by
  intro outLines errLines code
  unfold ExecuteCapture readStdoutLoop readStderrLoop
  rw [readStdoutLoop_general, readStderrLoop_general]
  simp

end Scripts

/-! ## SSH remoting: the key-generation claim (C6) -/

namespace Ssh

/-- C6: for every bit size and passphrase, `GenerateKeyPair` returns the
private key as a PEM block of type `"RSA PRIVATE KEY"` that is encrypted with
AES-256 under the passphrase exactly when the passphrase is non-empty (and is
the plain PKCS#1 encoding otherwise), together with the matching public key
in one-line `ssh-rsa` authorized-keys form. -/
theorem generateKeyPair_spec :
    ∀ (base64 : Nat → String) (bits : Nat) (key : RSAPrivateKey)
      (pass : String),
      (GenerateKeyPair base64 bits key pass).1.blockType = "RSA PRIVATE KEY" ∧
      ((GenerateKeyPair base64 bits key pass).1.cipherOf = some .aes256 ↔
        pass ≠ "") ∧
      (pass = "" →
        (GenerateKeyPair base64 bits key pass).1.payload =
          .plain (marshalPKCS1PrivateKey key)) ∧
      (pass ≠ "" →
        (GenerateKeyPair base64 bits key pass).1.payload =
          .encrypted (marshalPKCS1PrivateKey key) pass .aes256) ∧
      (GenerateKeyPair base64 bits key pass).2 =
        "ssh-rsa " ++ base64 key.publicKey.material ++ "\n" := by
  intro base64 bits key pass
  by_cases h : pass = "" <;>
    simp [GenerateKeyPair, encryptPEMBlock, PEMBlock.cipherOf,
      marshalAuthorizedKey, h]

/-- Witness for `generateKeyPair_spec`: a non-empty passphrase yields the
AES-256-encrypted payload. -/
theorem generateKeyPair_spec_witness :
    (GenerateKeyPair toString 2048 ⟨5⟩ "pw").1.payload =
      .encrypted (marshalPKCS1PrivateKey ⟨5⟩) "pw" .aes256 :=
  (generateKeyPair_spec toString 2048 ⟨5⟩ "pw").2.2.2.1 (by decide)

end Ssh

/-! ## Scheduler: the Start/Stop claim (C10) and AddJob replacement (C5) -/

namespace Scheduler

/-- C10: `Start` errors exactly when the scheduler is already running and
`Stop` errors exactly when it is not; on error the state is unchanged, and on
success exactly the `running` flag is flipped (cron registry and jobs map are
untouched). -/
theorem start_stop_spec :
    ∀ s : SchedState,
      ((Start s).2.isSome ↔ s.running = true) ∧
      ((Stop s).2.isSome ↔ s.running = false) ∧
      ((Start s).2.isSome → (Start s).1 = s) ∧
      ((Start s).2 = none → (Start s).1 = { s with running := true }) ∧
      ((Stop s).2.isSome → (Stop s).1 = s) ∧
      ((Stop s).2 = none → (Stop s).1 = { s with running := false }) := by
  intro s
  cases s with
  | mk cron running jobs =>
    by_cases h : running <;> simp [Start, Stop, h]

/-- Witness for `start_stop_spec`: starting a stopped scheduler flips only
the flag. -/
theorem start_stop_spec_witness :
    (Start ⟨⟨[], 0⟩, false, []⟩).1 = (⟨⟨[], 0⟩, true, []⟩ : SchedState) :=
  (start_stop_spec ⟨⟨[], 0⟩, false, []⟩).2.2.2.1 (by decide)

theorem cronWF_removeEntry {c : Cron} (h : c.WF = true) (eid : Nat) :
    (c.removeEntry eid).WF = true := by
  simp only [Cron.WF, Cron.removeEntry, List.all_eq_true] at h ⊢
  intro e he
  exact h e (List.mem_of_mem_filter he)

theorem removeEntry_nextId (c : Cron) (eid : Nat) :
    (c.removeEntry eid).nextId = c.nextId := rfl

theorem addFunc_some {valid : String → Bool} {c c' : Cron} {spec : String}
    {fnId eid : Nat} (ha : Cron.addFunc valid c spec fnId = some (c', eid)) :
    eid = c.nextId ∧ c'.nextId = c.nextId + 1 ∧
      c'.entries = c.entries ++ [⟨c.nextId, spec, fnId⟩] := by
  unfold Cron.addFunc at ha
  by_cases hv : valid spec = true
  · rw [if_pos hv] at ha
    injection ha with ha
    injection ha with ha1 ha2
    subst ha2
    exact ⟨rfl, congrArg Cron.nextId ha1.symm ▸ rfl,
      congrArg Cron.entries ha1.symm ▸ rfl⟩
  · rw [if_neg hv] at ha
    cases ha

theorem addFunc_valid {valid : String → Bool} {c : Cron} {spec : String}
    {fnId : Nat} (hv : valid spec = true) :
    Cron.addFunc valid c spec fnId =
      some ({ entries := c.entries ++ [⟨c.nextId, spec, fnId⟩],
              nextId := c.nextId + 1 }, c.nextId) := by
  unfold Cron.addFunc
  rw [if_pos hv]

theorem cronWF_addFunc_result {valid : String → Bool} {c c' : Cron}
    {spec : String} {fnId eid : Nat} (h : c.WF = true)
    (ha : Cron.addFunc valid c spec fnId = some (c', eid)) : c'.WF = true := by
  obtain ⟨-, hn, he⟩ := addFunc_some ha
  simp only [Cron.WF, List.all_eq_true] at h ⊢
  intro e hmem
  rw [he] at hmem
  rw [hn]
  rcases List.mem_append.mp hmem with hold | hnew
  · have := h e hold
    simp only [decide_eq_true_eq] at this ⊢
    omega
  · simp only [List.mem_singleton] at hnew
    subst hnew
    simp

/-- Entries all below `nextId` filter away against the freshly allocated id. -/
theorem filter_fresh_entry (entries : List CronEntry) (nid : Nat) (sp : String)
    (fn : Nat) (h : entries.all (fun e => e.entryId < nid) = true) :
    (entries ++ [(⟨nid, sp, fn⟩ : CronEntry)]).filter
        (fun e => e.entryId == nid) =
      [(⟨nid, sp, fn⟩ : CronEntry)] := by
  rw [List.filter_append]
  have h1 : entries.filter (fun e => e.entryId == nid) = [] := by
    rw [List.filter_eq_nil_iff]
    intro e hmem
    simp only [List.all_eq_true, decide_eq_true_eq] at h
    have := h e hmem
    simp only [beq_iff_eq]
    omega
  rw [h1]
  simp

/-- `AddJob` preserves registry well-formedness, whether or not the spec
parses. -/
theorem addJob_preserves_WF (valid : String → Bool) (s : SchedState)
    (jobId spec : String) (fn : Nat) (hwf : s.cron.WF = true) :
    ((AddJob valid s jobId spec fn).1).cron.WF = true := by
  unfold AddJob
  cases hj : alookup s.jobs jobId with
  | none =>
    dsimp only
    cases hf : Cron.addFunc valid s.cron spec fn with
    | none => exact hwf
    | some p =>
      cases p with
      | mk c2 eid => exact cronWF_addFunc_result hwf hf
  | some eid =>
    dsimp only
    have hwf1 : (s.cron.removeEntry eid).WF = true := cronWF_removeEntry hwf eid
    cases hf : Cron.addFunc valid (s.cron.removeEntry eid) spec fn with
    | none => exact hwf1
    | some p =>
      cases p with
      | mk c2 eid2 => exact cronWF_addFunc_result hwf1 hf

/-- A single `AddJob` with a parseable spec on a well-formed registry leaves
exactly one active entry under the job id, with that spec and function. -/
theorem addJob_fresh_entry (valid : String → Bool) (s : SchedState)
    (jobId spec : String) (fn : Nat) (hwf : s.cron.WF = true)
    (hv : valid spec = true) :
    (alookup ((AddJob valid s jobId spec fn).1).jobs jobId).isSome = true ∧
    ((AddJob valid s jobId spec fn).1).cron.entries.filter
        (fun e => e.entryId ==
          (alookup ((AddJob valid s jobId spec fn).1).jobs jobId).getD 0) =
      [(⟨(alookup ((AddJob valid s jobId spec fn).1).jobs jobId).getD 0,
          spec, fn⟩ : CronEntry)] := by
  unfold AddJob
  cases hj : alookup s.jobs jobId with
  | none =>
    dsimp only
    rw [addFunc_valid hv]
    dsimp only
    rw [alookup_aset_self]
    exact ⟨rfl, filter_fresh_entry s.cron.entries s.cron.nextId spec fn hwf⟩
  | some eid =>
    dsimp only
    rw [addFunc_valid hv]
    dsimp only
    rw [alookup_aset_self]
    refine ⟨rfl, ?_⟩
    have hwf1 : (s.cron.removeEntry eid).WF = true := cronWF_removeEntry hwf eid
    exact filter_fresh_entry (s.cron.removeEntry eid).entries
      (s.cron.removeEntry eid).nextId spec fn hwf1

/-- C5: two consecutive `AddJob` calls on the same job id leave the registry
with exactly one active cron entry registered under that id, carrying the
second call's spec and function; the whole replacement runs under the
scheduler's mutex, hence atomically with respect to the registry. -/
theorem addJob_replaces :
    ∀ (valid : String → Bool) (s : SchedState) (jobId spec spec' : String)
      (fn fn' : Nat),
      s.cron.WF = true → valid spec = true → valid spec' = true →
      (alookup ((AddJob valid (AddJob valid s jobId spec fn).1
          jobId spec' fn').1).jobs jobId).isSome = true ∧
      ((AddJob valid (AddJob valid s jobId spec fn).1
          jobId spec' fn').1).cron.entries.filter
          (fun e => e.entryId ==
            (alookup ((AddJob valid (AddJob valid s jobId spec fn).1
              jobId spec' fn').1).jobs jobId).getD 0) =
        [(⟨(alookup ((AddJob valid (AddJob valid s jobId spec fn).1
            jobId spec' fn').1).jobs jobId).getD 0, spec', fn'⟩ : CronEntry)] := by
  intro valid s jobId spec spec' fn fn' hwf hv hv'
  exact addJob_fresh_entry valid (AddJob valid s jobId spec fn).1 jobId spec' fn'
    (addJob_preserves_WF valid s jobId spec fn hwf) hv'

/-- Witness for `addJob_replaces` on an initially empty scheduler. -/
theorem addJob_replaces_witness :
    (alookup ((AddJob (fun _ => true)
        (AddJob (fun _ => true) ⟨⟨[], 0⟩, false, []⟩ "cleanup" "0 * * * * *" 1).1
        "cleanup" "0 0 2 * * *" 2).1).jobs "cleanup").isSome = true ∧
    ((AddJob (fun _ => true)
        (AddJob (fun _ => true) ⟨⟨[], 0⟩, false, []⟩ "cleanup" "0 * * * * *" 1).1
        "cleanup" "0 0 2 * * *" 2).1).cron.entries.filter
        (fun e => e.entryId ==
          (alookup ((AddJob (fun _ => true)
            (AddJob (fun _ => true) ⟨⟨[], 0⟩, false, []⟩ "cleanup" "0 * * * * *" 1).1
            "cleanup" "0 0 2 * * *" 2).1).jobs "cleanup").getD 0) =
      [(⟨(alookup ((AddJob (fun _ => true)
          (AddJob (fun _ => true) ⟨⟨[], 0⟩, false, []⟩ "cleanup" "0 * * * * *" 1).1
          "cleanup" "0 0 2 * * *" 2).1).jobs "cleanup").getD 0,
        "0 0 2 * * *", 2⟩ : CronEntry)] :=
  addJob_replaces (fun _ => true) ⟨⟨[], 0⟩, false, []⟩ "cleanup" "0 * * * * *"
    "0 0 2 * * *" 1 2 (by decide) (by decide) (by decide)

end Scheduler

/-! ## Pipeline engine: environment merging (C1) -/

namespace Pipeline

/-- C1 counterexample: a user `config.env` entry for `BUILD_VERSION` shadows
the engine-synthesized value in the merged environment — the user entry wins,
not the well-known. -/
theorem user_env_overrides_wellknown :
    executeScriptEnv "proj" 1 2 3
        ⟨some "echo hello", none, some [("BUILD_VERSION", .str "user-pick")]⟩
        "BUILD_VERSION" = some "user-pick" ∧
      some "user-pick" ≠ some ("v" ++ toString 3) ∧
      wellKnownEnv "proj" 1 2 3 "BUILD_VERSION" = some ("v" ++ toString 3) := by
  decide

theorem mergeUserEnv_lookup (entries : List (String × GoVal)) (base : StrMap)
    (k : String) :
    mergeUserEnv base entries k =
      match lastStr entries k with
      | some v => some v
      | none => base k := by
  induction entries generalizing base with
  | nil => simp [mergeUserEnv, lastStr]
  | cons p rest ih =>
    cases p with
    | mk k' v =>
      cases v with
      | str s =>
        rw [mergeUserEnv, ih]
        cases h : lastStr rest k with
        | some w => simp [lastStr, h]
        | none =>
          by_cases hk : k' = k
          · subst hk
            simp [lastStr, h, StrMap.set]
          · have hk' : ¬ k = k' := fun hc => hk hc.symm
            simp [lastStr, h, hk, hk', StrMap.set]
      | nonString =>
        rw [mergeUserEnv, ih]
        simp [lastStr]

/-- C1 amended: in the merged environment handed to the Script Executor, a
user `config.env` entry overrides the engine-synthesized well-known variable
whenever the same key is provided (user wins); keys with no string-valued
user entry keep the engine-synthesized values. -/
theorem executeScriptEnv_user_wins :
    ∀ (projectName : String) (projectId pipelineId runId : Nat)
      (sc bt : Option String) (entries : List (String × GoVal)) (k : String),
      executeScriptEnv projectName projectId pipelineId runId
          ⟨sc, bt, some entries⟩ k =
        (match lastStr entries k with
          | some v => some v
          | none => wellKnownEnv projectName projectId pipelineId runId k) ∧
      executeScriptEnv projectName projectId pipelineId runId
          ⟨sc, bt, none⟩ k =
        wellKnownEnv projectName projectId pipelineId runId k := by
  intro projectName projectId pipelineId runId sc bt entries k
  constructor
  · exact mergeUserEnv_lookup entries _ k
  · rfl

end Pipeline

/-! ## Pipeline engine: run lifecycle over event traces (C2, C3, C4, C9) -/

namespace Pipeline

/-- C2 counterexample: start a run, cancel it (persisting the terminal status
`cancelled`), then let the run's own goroutine finish — its unconditional
`finishPipelineRun` write moves the persisted status from `cancelled` to
`failed`, so terminal statuses are not absorbing. -/
theorem cancelled_overwritten_by_finish :
    runStatusOf (engine0.runTrace [.runReq 1 7, .cancelReq 7]) 7 =
        some .cancelled ∧
      RunStatus.cancelled.isTerminal = true ∧
      runStatusOf
          ((engine0.runTrace [.runReq 1 7, .cancelReq 7]).stepEv
            (.finish 7 .failed "阶段 build 执行失败")) 7 =
        some .failed ∧
      RunStatus.failed ≠ RunStatus.cancelled := by
  decide

/-- C3 counterexample: `RunPipeline` on a pipeline whose stored spec does not
parse still creates the run — already in status `running` — instead of
rejecting the request at entry. -/
theorem invalid_spec_run_reaches_running :
    parseConfig brokenPipeline.config = none ∧
      (RunPipeline engine0 2 7).2 = true ∧
      runStatusOf (RunPipeline engine0 2 7).1 7 = some .running := by
  decide

/-- C4 counterexample: six concurrent submissions against the default cap of
five all run at once — `RunPipeline` consults no semaphore. -/
theorem six_concurrent_running :
    runningCount (engine0.runTrace (runBurst 6)) = 6 ∧ 6 > 5 := by
  decide

/-- A run with a persisted record but no live-registry entry is frozen by
every single engine event: its status and logs stay as they are, and it never
re-enters the registry. -/
theorem stepEv_preserves_dead (st : EngineState) (ev : Event) (rid : Nat)
    (r : RunRec) (hl : alookup st.live rid = none)
    (hr : alookup st.runs rid = some r) :
    alookup (st.stepEv ev).live rid = none ∧
      alookup (st.stepEv ev).runs rid = some r := by
  cases ev with
  | runReq pid rid' =>
    simp only [EngineState.stepEv]
    unfold RunPipeline
    cases hp : alookup st.pipelines pid with
    | none => exact ⟨hl, hr⟩
    | some pl =>
      dsimp only
      by_cases hfresh : (alookup st.runs rid').isSome = true
      · rw [if_pos hfresh]
        exact ⟨hl, hr⟩
      · rw [if_neg hfresh]
        dsimp only
        have hne : rid ≠ rid' := by
          intro he
          subst he
          rw [hr] at hfresh
          simp at hfresh
        constructor
        · rw [alookup_append, hl]
          simp [alookup, hne]
        · rw [alookup_append, hr]
  | finish rid' status msg =>
    simp only [EngineState.stepEv]
    by_cases hg : ((alookup st.live rid').isSome
        && (status == RunStatus.success || status == RunStatus.failed)) = true
    · rw [if_pos hg]
      have hne : rid ≠ rid' := by
        intro he
        subst he
        rw [hl] at hg
        simp at hg
      unfold goroutineFinish finishPipelineRun
      dsimp only
      exact ⟨by rw [alookup_adel_ne _ _ _ hne, hl],
        by rw [alookup_aupd_ne _ _ _ _ hne, hr]⟩
    · rw [if_neg hg]
      exact ⟨hl, hr⟩
  | cancelReq rid' =>
    simp only [EngineState.stepEv]
    unfold CancelPipelineRun
    cases hc : alookup st.live rid' with
    | none => exact ⟨hl, hr⟩
    | some ctx =>
      dsimp only
      have hne : rid ≠ rid' := by
        intro he
        subst he
        rw [hl] at hc
        cases hc
      exact ⟨hl, by rw [alookup_aupd_ne _ _ _ _ hne, hr]⟩
  | publish rid' line =>
    simp only [EngineState.stepEv]
    unfold logMessage
    cases hc : alookup st.live rid' with
    | none => exact ⟨hl, hr⟩
    | some ctx =>
      dsimp only
      have hne : rid ≠ rid' := by
        intro he
        subst he
        rw [hl] at hc
        cases hc
      by_cases hlen : ctx.logChan.length < 100
      · rw [if_pos hlen]
        exact ⟨by rw [alookup_aupd_ne _ _ _ _ hne, hl], hr⟩
      · rw [if_neg hlen]
        exact ⟨hl, hr⟩
  | getLogs rid' =>
    simp only [EngineState.stepEv]
    unfold GetJobLogs
    cases hc : alookup st.live rid' with
    | none =>
      dsimp only
      cases hx : alookup st.runs rid' <;> exact ⟨hl, hr⟩
    | some ctx =>
      dsimp only
      have hne : rid ≠ rid' := by
        intro he
        subst he
        rw [hl] at hc
        cases hc
      exact ⟨by rw [alookup_aupd_ne _ _ _ _ hne, hl], hr⟩

theorem runTrace_preserves_dead (evs : List Event) (st : EngineState)
    (rid : Nat) (r : RunRec) (hl : alookup st.live rid = none)
    (hr : alookup st.runs rid = some r) :
    alookup (st.runTrace evs).live rid = none ∧
      alookup (st.runTrace evs).runs rid = some r := by
  induction evs generalizing st with
  | nil => exact ⟨hl, hr⟩
  | cons ev rest ih =>
    simp only [EngineState.runTrace, List.foldl_cons]
    obtain ⟨h1, h2⟩ := stepEv_preserves_dead st ev rid r hl hr
    exact ih _ h1 h2

/-- C2 amended: a terminal status is absorbing only once the owning goroutine
has performed its finish write and left the live registry: from then on no
engine operation changes the run's persisted record.  (By
`cancelled_overwritten_by_finish`, a `cancelled` status written by
`CancelPipelineRun` while the goroutine is still registered is *not*
absorbing: the goroutine's unconditional finish write overwrites it.) -/
theorem dead_run_record_frozen :
    ∀ (st : EngineState) (evs : List Event) (rid : Nat) (r : RunRec),
      alookup st.live rid = none → alookup st.runs rid = some r →
      alookup (st.runTrace evs).runs rid = some r ∧
        runStatusOf (st.runTrace evs) rid = some r.status := by
  intro st evs rid r hl hr
  have h := runTrace_preserves_dead evs st rid r hl hr
  refine ⟨h.2, ?_⟩
  rw [runStatusOf, h.2]
  rfl

/-- Witness for `dead_run_record_frozen`: a finished (deregistered) successful
run survives a cancel request and a stray finish event unchanged. -/
theorem dead_run_record_frozen_witness :
    alookup (((⟨[], [(7, ⟨1, .success, "done"⟩)], []⟩ : EngineState).runTrace
        [.cancelReq 7, .finish 7 .failed "boom"]).runs) 7 =
      some ⟨1, .success, "done"⟩ ∧
    runStatusOf ((⟨[], [(7, ⟨1, .success, "done"⟩)], []⟩ : EngineState).runTrace
        [.cancelReq 7, .finish 7 .failed "boom"]) 7 = some .success :=
  dead_run_record_frozen ⟨[], [(7, ⟨1, .success, "done"⟩)], []⟩
    [.cancelReq 7, .finish 7 .failed "boom"] 7 ⟨1, .success, "done"⟩
    (by decide) (by decide)

/-- C3 amended: `RunPipeline` does not reject an invalid spec at entry — it
creates the run already in status `running`; the parse failure is only
detected by the asynchronous `executePipeline`, whose finish write then
marks the run `failed`. -/
theorem invalid_spec_not_rejected :
    ∀ (st : EngineState) (pid rid : Nat) (pl : PipelineRec)
      (oracle : PipelineStep → Bool) (msg : String),
      alookup st.pipelines pid = some pl →
      parseConfig pl.config = none →
      alookup st.runs rid = none →
      (RunPipeline st pid rid).2 = true ∧
      runStatusOf (RunPipeline st pid rid).1 rid = some .running ∧
      executePipelineStatus oracle pl.config = .failed ∧
      runStatusOf
          ((RunPipeline st pid rid).1.stepEv
            (.finish rid (executePipelineStatus oracle pl.config) msg)) rid =
        some .failed := by
  intro st pid rid pl oracle msg hp hcfg hr
  have hstatus : executePipelineStatus oracle pl.config = .failed := by
    unfold executePipelineStatus
    rw [hcfg]
  have hrun : RunPipeline st pid rid =
      ({ st with runs := st.runs ++ [(rid, ⟨pid, .running, ""⟩)],
                 live := st.live ++ [(rid, ⟨[]⟩)] }, true) := by
    unfold RunPipeline
    rw [hp]
    dsimp only
    rw [if_neg (by rw [hr]; simp)]
  refine ⟨by rw [hrun], ?_, hstatus, ?_⟩
  · rw [hrun, runStatusOf]
    dsimp only
    rw [alookup_snoc_fresh _ _ _ hr]
    rfl
  · rw [hstatus, hrun]
    dsimp only
    simp only [EngineState.stepEv]
    rw [if_pos (by rw [alookup_snoc_isSome]; rfl)]
    unfold goroutineFinish finishPipelineRun
    dsimp only
    rw [runStatusOf]
    dsimp only
    rw [alookup_aupd_self, alookup_snoc_fresh _ _ _ hr]
    rfl

/-- Witness for `invalid_spec_not_rejected` on the stored broken pipeline. -/
theorem invalid_spec_not_rejected_witness :
    (RunPipeline engine0 2 9).2 = true ∧
    runStatusOf (RunPipeline engine0 2 9).1 9 = some .running ∧
    executePipelineStatus (fun _ => true) brokenPipeline.config = .failed ∧
    runStatusOf
        ((RunPipeline engine0 2 9).1.stepEv
          (.finish 9 (executePipelineStatus (fun _ => true)
            brokenPipeline.config) "解析流水线配置失败")) 9 =
      some .failed :=
  invalid_spec_not_rejected engine0 2 9 brokenPipeline (fun _ => true)
    "解析流水线配置失败" (by decide) (by decide) (by decide)

theorem alookup_range_map_none {α : Type} (f : Nat → α) :
    ∀ (n k : Nat), n < k →
      alookup ((List.range n).map (fun i => (i + 1, f i))) k = none := by
  intro n
  induction n with
  | zero =>
    intro k h
    simp [alookup]
  | succ n ih =>
    intro k h
    rw [List.range_succ, List.map_append, alookup_append, ih k (by omega)]
    have hk : ¬ k = n + 1 := by omega
    simp [alookup, hk]

/-- The engine state after `n` back-to-back submissions: all `n` runs are
persisted as `running` and registered live. -/
theorem runTrace_runBurst :
    ∀ n : Nat,
      engine0.runTrace (runBurst n) =
        ⟨engine0.pipelines,
          (List.range n).map (fun i => (i + 1, ⟨1, .running, ""⟩)),
          (List.range n).map (fun i => (i + 1, ⟨[]⟩))⟩ := by
  intro n
  induction n with
  | zero => rfl
  | succ n ih =>
    have hb : runBurst (n + 1) = runBurst n ++ [.runReq 1 (n + 1)] := by
      unfold runBurst
      rw [List.range_succ, List.map_append]
      rfl
    rw [hb, EngineState.runTrace, List.foldl_append]
    rw [show List.foldl EngineState.stepEv engine0 (runBurst n) =
      engine0.runTrace (runBurst n) from rfl, ih]
    show (RunPipeline _ 1 (n + 1)).1 = _
    unfold RunPipeline
    have hp : alookup
        (engine0.pipelines : List (Nat × PipelineRec)) 1 = some demoPipeline := by
      decide
    rw [hp]
    dsimp only
    rw [if_neg (by rw [alookup_range_map_none _ n (n + 1) (by omega)]; simp)]
    dsimp only
    rw [List.range_succ, List.map_append, List.map_append]
    rfl

/-- C4 amended: the engine enforces no concurrency cap at all — `RunPipeline`
admits every submission immediately (the configured
`max_concurrent`/`max_concurrent_deployments`, default 5, is never
consulted), so for every `n` a burst of `n` submissions yields `n` runs in
status `running` simultaneously. -/
theorem no_dispatch_gate :
    ∀ n : Nat, runningCount (engine0.runTrace (runBurst n)) = n := by
  intro n
  rw [runTrace_runBurst n]
  unfold runningCount
  dsimp only
  rw [List.filter_eq_self.mpr]
  · rw [List.length_map, List.length_range]
  · intro p hp
    simp only [List.mem_map] at hp
    obtain ⟨i, -, hEq⟩ := hp
    subst hEq
    rfl

/-- Publishing lines onto a live run's channel accumulates them in order as
long as the capacity of 100 is not exhausted. -/
theorem publish_accumulates :
    ∀ (ls : List String) (st : EngineState) (rid : Nat) (buf : List String),
      alookup st.live rid = some ⟨buf⟩ →
      buf.length + ls.length ≤ 100 →
      alookup ((st.runTrace (ls.map (fun l => Event.publish rid l))).live) rid =
        some ⟨buf ++ ls⟩ := by
  intro ls
  induction ls with
  | nil =>
    intro st rid buf hl hb
    simpa [EngineState.runTrace] using hl
  | cons l rest ih =>
    intro st rid buf hl hb
    have hlt : buf.length < 100 := by
      simp only [List.length_cons] at hb
      omega
    have hstep : st.stepEv (Event.publish rid l) =
        { st with live := aupd st.live rid (fun c => ⟨c.logChan ++ [l]⟩) } := by
      simp only [EngineState.stepEv]
      unfold logMessage
      rw [hl]
      dsimp only
      rw [if_pos hlt]
    have h2 : alookup (st.stepEv (Event.publish rid l)).live rid =
        some ⟨buf ++ [l]⟩ := by
      rw [hstep]
      dsimp only
      rw [alookup_aupd_self, hl]
      rfl
    have h3 := ih (st.stepEv (Event.publish rid l)) rid (buf ++ [l]) h2
      (by simp only [List.length_append, List.length_cons, List.length_nil] at hb ⊢; omega)
    simp only [List.map_cons, EngineState.runTrace, List.foldl_cons]
    simp only [EngineState.runTrace] at h3
    simpa [List.append_assoc] using h3

/-- C9: `GetJobLogs` on a run absent from the live registry returns the
persisted log blob as a one-element list when the run exists in the store and
an error when it does not (both without touching the state); on a live run it
returns exactly the buffered lines and drains the channel, so an immediately
following call observes only the lines published in between (stated for
bursts that fit the capacity-100 channel). -/
theorem getJobLogs_spec :
    ∀ (st : EngineState) (rid : Nat),
      (alookup st.live rid = none → alookup st.runs rid = none →
        GetJobLogs st rid = (.error "流水线运行不存在", st)) ∧
      (∀ r : RunRec, alookup st.live rid = none → alookup st.runs rid = some r →
        GetJobLogs st rid = (.ok [r.logs], st)) ∧
      (∀ (ctx : JobCtx) (ls : List String),
        alookup st.live rid = some ctx → ls.length ≤ 100 →
        (GetJobLogs st rid).1 = .ok ctx.logChan ∧
        alookup (GetJobLogs st rid).2.live rid = some ⟨[]⟩ ∧
        (GetJobLogs ((GetJobLogs st rid).2.runTrace
            (ls.map (fun l => Event.publish rid l))) rid).1 = .ok ls) := by
  intro st rid
  refine ⟨?_, ?_, ?_⟩
  · intro hl hr
    unfold GetJobLogs
    rw [hl]
    dsimp only
    rw [hr]
  · intro r hl hr
    unfold GetJobLogs
    rw [hl]
    dsimp only
    rw [hr]
  · intro ctx ls hl hls
    have h1 : GetJobLogs st rid =
        (.ok ctx.logChan,
          { st with live := aupd st.live rid (fun _ => ⟨[]⟩) }) := by
      unfold GetJobLogs
      rw [hl]
    have h2 : alookup (GetJobLogs st rid).2.live rid = some ⟨[]⟩ := by
      rw [h1]
      dsimp only
      rw [alookup_aupd_self, hl]
      rfl
    refine ⟨by rw [h1], h2, ?_⟩
    have h3 := publish_accumulates ls (GetJobLogs st rid).2 rid [] h2
      (by simpa using hls)
    generalize hst : (GetJobLogs st rid).2.runTrace
      (ls.map (fun l => Event.publish rid l)) = stf at h3 ⊢
    unfold GetJobLogs
    rw [h3]
    simp

/-- Witness for `getJobLogs_spec`: draining run 7's two buffered lines, then
publishing one more line, makes the second call return exactly that line. -/
theorem getJobLogs_spec_witness :
    (GetJobLogs liveLogState 7).1 = .ok ["a", "b"] ∧
    alookup (GetJobLogs liveLogState 7).2.live 7 = some ⟨[]⟩ ∧
    (GetJobLogs ((GetJobLogs liveLogState 7).2.runTrace
        (["c"].map (fun l => Event.publish 7 l))) 7).1 = .ok ["c"] :=
  (getJobLogs_spec liveLogState 7).2.2 ⟨["a", "b"]⟩ ["c"] (by decide) (by decide)

end Pipeline

end FlowForge
